import Mathlib

/-!
Verification of the i18n key-reconciliation utilities of this repository
(`i18n-sync.py` and `i18n-extract.py`).

A translation table (Python `Dict[str, str]`, insertion ordered) is
modelled as an association list `List (String × String)`; dictionary
semantics correspond to lists whose key projection has no duplicates.
Python sets of keys are modelled as lists filtered from the reference
iteration order.  Definitions come first, then the theorems.
-/

namespace I18n

/-- A locale's translation table: ordered mapping from key to value. -/
abbrev Table := List (String × String)

/-- Value lookup `data[key]`, defaulting to `""` (used only at keys known
to be present). -/
def getVal (data : Table) (k : String) : String :=
  (data.lookup k).getD ""

/-- The key set of a table with the `$schema` metadata key excluded, as
computed by `set(k for k in data.keys() if k != "$schema")` in
`find_missing_keys` (iteration order of the table is kept). -/
def table_keys (data : Table) : List String :=
  (data.map Prod.fst).filter (fun k => !(k == "$schema"))

/-- Function `find_missing_keys(sv_data, en_data)` from `i18n-sync.py`:
`(sv_keys - en_keys, en_keys - sv_keys)`, both sides excluding `$schema`. -/
def find_missing_keys (sv_data en_data : Table) : List String × List String :=
  ((table_keys sv_data).filter (fun k => !((table_keys en_data).contains k)),
   (table_keys en_data).filter (fun k => !((table_keys sv_data).contains k)))

/-- The missing-key insertion loop of `main` (`for key in missing: target[key]
= placeholder`): every key of the reference missing from the target is
appended with the placeholder value. -/
def merge_missing (reference target : Table) (placeholder : String) : Table :=
  target ++ ((find_missing_keys reference target).1).map (fun k => (k, placeholder))

/-- Function `sort_keys_alphabetically` from `i18n-sync.py`: `$schema` first if
present, then the remaining keys sorted; values are carried over by
dictionary lookup. -/
def sort_keys_alphabetically (data : Table) : Table :=
  (if (data.map Prod.fst).contains "$schema" then [("$schema", getVal data "$schema")] else [])
  ++ (List.insertionSort (· ≤ ·)
        ((data.map Prod.fst).filter (fun k => !(k == "$schema")))).map
      (fun k => (k, getVal data k))

def isAsciiLower (c : Char) : Bool := 'a' ≤ c && c ≤ 'z'

def isAsciiUpper (c : Char) : Bool := 'A' ≤ c && c ≤ 'Z'

def isAsciiDigit (c : Char) : Bool := '0' ≤ c && c ≤ '9'

/-- A character allowed in the body of `^[a-z][a-z0-9_]*$`. -/
def isSnakeBody (c : Char) : Bool := isAsciiLower c || isAsciiDigit c || c == '_'

/-- The anchored regex `^[a-z][a-z0-9_]*$` on a character sequence. -/
def matchesSnakePattern : List Char → Bool
  | [] => false
  | c :: cs => isAsciiLower c && cs.all isSnakeBody

/-- Function `validate_snake_case` from `i18n-sync.py`:
`re.match(r"^[a-z][a-z0-9_]*$", key)`.  Python's `$` also matches just
before a newline at the very end of the string, so a trailing `"\n"` is
tolerated. -/
def validate_snake_case (key : String) : Bool :=
  matchesSnakePattern key.toList ||
    (match key.toList.getLast? with
     | some c => c == '\n' && matchesSnakePattern key.toList.dropLast
     | none => false)

/-- Scanner state for `re.sub("(.)([A-Z][a-z]+)", r"\1_\2", s)`: nothing
pending, one pending character (the `(.)`), or a pending character plus an
uppercase letter and the lowercase run read so far. -/
inductive CamelState where
  | start : CamelState
  | one (p : Char) : CamelState
  | two (p u : Char) (acc : List Char) : CamelState

/-- One step of the first camel-case substitution of `suggest_snake_case`;
returns the next state and the characters emitted. -/
def sub1Step : CamelState → Char → CamelState × List Char
  | .start, c => (.one c, [])
  | .one p, c => if isAsciiUpper c then (.two p c [], []) else (.one c, [p])
  | .two p u [], c =>
      if isAsciiLower c then (.two p u [c], [])
      else if isAsciiUpper c then (.two u c [], [p])
      else (.one c, [p, u])
  | .two p u (a :: as), c =>
      if isAsciiLower c then (.two p u ((a :: as) ++ [c]), [])
      else (.one c, p :: '_' :: u :: a :: as)

/-- Characters emitted at end of input for the first substitution: a
complete match `(.)([A-Z][a-z]+)` is replaced by `\1_\2`. -/
def sub1Flush : CamelState → List Char
  | .start => []
  | .one p => [p]
  | .two p u [] => [p, u]
  | .two p u (a :: as) => p :: '_' :: u :: a :: as

/-- The substitution `re.sub("(.)([A-Z][a-z]+)", r"\1_\2", s)` as a left-to-right scan. -/
def runSub1 : CamelState → List Char → List Char
  | st, [] => sub1Flush st
  | st, c :: cs => (sub1Step st c).2 ++ runSub1 (sub1Step st c).1 cs

/-- One step of `re.sub("([a-z0-9])([A-Z])", r"\1_\2", s)`: on a match both
characters are consumed (so overlapping matches are not rewritten). -/
def sub2Step : Option Char → Char → Option Char × List Char
  | none, c => (some c, [])
  | some p, c =>
      if (isAsciiLower p || isAsciiDigit p) && isAsciiUpper c then (none, [p, '_', c])
      else (some c, [p])

def sub2Flush : Option Char → List Char
  | none => []
  | some p => [p]

/-- The substitution `re.sub("([a-z0-9])([A-Z])", r"\1_\2", s)` as a left-to-right scan. -/
def runSub2 : Option Char → List Char → List Char
  | st, [] => sub2Flush st
  | st, c :: cs => (sub2Step st c).2 ++ runSub2 (sub2Step st c).1 cs

/-- The substitution `re.sub("_+", "_", s)`: collapse each run of underscores to one. -/
def squeezeUnderscores (l : List Char) : List Char :=
  l.foldr (fun c done => if c == '_' && done.head? == some '_' then done else c :: done) []

/-- Python `s.strip("_")`: drop leading and trailing underscores. -/
def stripUnderscores (l : List Char) : List Char :=
  ((l.dropWhile (fun c => c == '_')).reverse.dropWhile (fun c => c == '_')).reverse

/-- Function `suggest_snake_case` from `i18n-sync.py`: two regex substitutions,
lowercasing, underscore collapsing, and underscore stripping. -/
def suggest_snake_case (key : String) : String :=
  String.mk (stripUnderscores (squeezeUnderscores
    ((runSub2 none (runSub1 CamelState.start key.toList)).map Char.toLower)))

/-- Function `find_naming_violations` from `i18n-sync.py`: every non-schema key that
fails `validate_snake_case`, paired with its suggestion. -/
def find_naming_violations (data : Table) : List (String × String) :=
  ((data.map Prod.fst).filter
      (fun k => !(k == "$schema") && !(validate_snake_case k))).map
    (fun k => (k, suggest_snake_case k))

/-- Operation `value_to_keys[v].append(k)` on an insertion-ordered association of
groups: append to the group of `v` if it exists, else open a new group. -/
def addToGroups {α : Type} : List (String × List α) → String → α → List (String × List α)
  | [], v, k => [(v, [k])]
  | (w, ks) :: rest, v, k =>
      if w = v then (w, ks ++ [k]) :: rest else (w, ks) :: addToGroups rest v k

/-- The `defaultdict(list)` grouping loop over a list of
(group key, item) entries. -/
def buildGroups {α : Type} (entries : List (String × α)) : List (String × List α) :=
  entries.foldl (fun gs e => addToGroups gs e.1 e.2) []

/-- Whether `pat` occurs at the start of `s` (helper for Python's `in`). -/
def startsWithPat : List Char → List Char → Bool
  | [], _ => true
  | _ :: _, [] => false
  | p :: ps, c :: cs => p == c && startsWithPat ps cs

/-- Python's substring test `pat in s`: `pat` occurs contiguously in `s`. -/
def containsPat (pat s : List Char) : Bool :=
  match s with
  | [] => startsWithPat pat []
  | _ :: cs => startsWithPat pat s || containsPat pat cs

/-- The characters Python's `str.strip()` (and `str.isspace()`) treats as
whitespace: TAB..CR (09-0D), FS..US (1C-1F), space (20), NEL (85),
NBSP (A0), Ogham space mark (1680), the Unicode space separators
2000-200A, line separator (2028), paragraph separator (2029), narrow
NBSP (202F), medium mathematical space (205F), and ideographic
space (3000). -/
def isPyWhitespace (c : Char) : Bool :=
  (9 ≤ c.toNat && c.toNat ≤ 13)
    || (28 ≤ c.toNat && c.toNat ≤ 31)
    || c.toNat == 32
    || c.toNat == 133
    || c.toNat == 160
    || c.toNat == 5760
    || (8192 ≤ c.toNat && c.toNat ≤ 8202)
    || c.toNat == 8232
    || c.toNat == 8233
    || c.toNat == 8239
    || c.toNat == 8287
    || c.toNat == 12288

/-- Python's `value.strip()`: drop leading and trailing whitespace. -/
def trimChars (l : List Char) : List Char :=
  ((l.dropWhile isPyWhitespace).reverse.dropWhile isPyWhitespace).reverse

/-- The value filters of `find_duplicate_values`: skip empty or
whitespace-only values, values whose stripped length is ≤ 1, and values
containing `"[TODO"` or `"TODO"`. -/
def dup_value_ok (v : String) : Bool :=
  !(v == "" || String.mk (trimChars v.toList) == "")
    && !(decide ((trimChars v.toList).length ≤ 1))
    && !(containsPat "[TODO".toList v.toList || containsPat "TODO".toList v.toList)

/-- Function `find_duplicate_values` from `i18n-sync.py`: group the surviving
(value, key) pairs by value, and keep the groups with 2 or more keys. -/
def find_duplicate_values (data : Table) : List (String × List String) :=
  (buildGroups ((data.filter (fun kv => !(kv.1 == "$schema") && dup_value_ok kv.2)).map
      (fun kv => (kv.2, kv.1)))).filter (fun g => g.2.length > 1)

/-- The effect on the group of `v` of appending items `ks`. -/
def extendGroups {α : Type} (v : String) (gs : List (String × List α)) (ks : List α) :
    List (String × List α) :=
  match gs with
  | [] => if ks.isEmpty then [] else [(v, ks)]
  | (w, ks0) :: rest => (w, ks0 ++ ks) :: rest

/-- A word character for the regex `\b` boundary: `[A-Za-z0-9_]`. -/
def isWordChar (c : Char) : Bool :=
  isAsciiLower c || isAsciiUpper c || isAsciiDigit c || c == '_'

/-- A valid captured key: `[a-z][a-z0-9_]*` followed by a word boundary.
Because the capture is the maximal word-character run after `m.`, the run
matches iff it is nonempty, starts with a lowercase letter, and contains
only `[a-z0-9_]`. -/
def validCapture : List Char → Bool
  | [] => false
  | c :: cs => isAsciiLower c && cs.all isSnakeBody

/-- Scanner state for `re.findall(r"\bm\.([a-z][a-z0-9_]*)\b", line)`:
scanning (tracking whether the previous character was a word character,
for `\b`), just after a boundary-`m`, or inside the candidate key after
`m.`. -/
inductive ScanState where
  | scan (prevWord : Bool) : ScanState
  | afterM : ScanState
  | inKey (acc : List Char) : ScanState

/-- One character step of the usage scanner; returns the next state and
any key emitted (a capture is emitted when its maximal word run ends). -/
def scanStep : ScanState → Char → ScanState × List String
  | .scan prevWord, c =>
      if c == 'm' && !prevWord then (.afterM, []) else (.scan (isWordChar c), [])
  | .afterM, c =>
      if c == '.' then (.inKey [], []) else (.scan (isWordChar c), [])
  | .inKey acc, c =>
      if isWordChar c then (.inKey (acc ++ [c]), [])
      else if validCapture acc then (.scan (isWordChar c), [String.mk acc])
      else (.scan (isWordChar c), [])

/-- Keys emitted at end of line (`$` is a word boundary). -/
def scanFlush : ScanState → List String
  | .scan _ => []
  | .afterM => []
  | .inKey acc => if validCapture acc then [String.mk acc] else []

/-- All keys captured on one line, left to right. -/
def scanLine : ScanState → List Char → List String
  | st, [] => scanFlush st
  | st, c :: cs => (scanStep st c).2 ++ scanLine (scanStep st c).1 cs

/-- Python `content.split("\n")`: split a character sequence at each newline,
keeping empty segments. -/
def splitLines (l : List Char) : List (List Char) :=
  match l with
  | [] => [[]]
  | c :: cs =>
      if c == '\n' then [] :: splitLines cs
      else
        match splitLines cs with
        | [] => [[c]]
        | line :: rest => (c :: line) :: rest

/-- Function `extract_translation_keys` from `i18n-extract.py`: split the file
content on newlines, scan each line for `\bm\.([a-z][a-z0-9_]*)\b`, and
group the hits as key `↦` list of line numbers (1-based, in scan order). -/
def extract_translation_keys (content : String) : List (String × List Nat) :=
  buildGroups
    (((splitLines content.toList).enum).flatMap
      (fun p => (scanLine (ScanState.scan false) p.2).map (fun k => (k, p.1 + 1))))

/-- The single-file UsageIndex of the spec: each key found in `content`
mapped to its (file, line) occurrences. -/
def usage_index (file : String) (content : String) : List (String × List (String × Nat)) :=
  (extract_translation_keys content).map
    (fun g => (g.1, g.2.map (fun n => (file, n))))

/-- A source text with `m.hello_world()` on line 5 and `m.bye` on line 9
and no other matching reference. -/
def sampleSource : String :=
  "alpha\nbeta\ngamma\ndelta\nconst t = m.hello_world();\nzeta\neta\ntheta\nlet y = m.bye;\nomega"

/-- The check-mode exit code of `i18n-sync.py`'s `main`: `has_issues` is
missing keys in either direction *or* naming violations in either table;
duplicates are warnings and do not enter the exit code. -/
def check_mode_exit (sv_data en_data : Table) : Nat :=
  let has_issues :=
    !(find_missing_keys sv_data en_data).1.isEmpty
      || !(find_missing_keys sv_data en_data).2.isEmpty
      || !(find_naming_violations sv_data).isEmpty
      || !(find_naming_violations en_data).isEmpty
  if has_issues then 1 else 0

/-- The exit code of `i18n-extract.py`'s `main`: 1 iff some key used in
code is missing from both tables. -/
def extract_exit_code (used_keys : List String) (sv_data en_data : Table) : Nat :=
  let missing := used_keys.filter
    (fun k => !((table_keys sv_data ++ table_keys en_data).contains k))
  if !missing.isEmpty then 1 else 0

/-- The backing store seen by one `save_json` call: the table's file and
its sibling `.json.backup` file (each either absent or holding content). -/
structure FileState where
  main : Option String
  backup : Option String
deriving DecidableEq

/-- The backup step of `save_json`: if the backing file exists, it is
renamed to the sibling backup path (overwriting any stale backup). -/
def make_backup (fs : FileState) : FileState :=
  if fs.main.isSome then { main := none, backup := fs.main } else fs

/-- Function `save_json` from `i18n-sync.py` as a state transformer.  `writeOk`
models whether `json.dump` succeeds; on failure the backing file holds
`partialContent` (possibly truncated) before the `except` handler renames
the backup back.  On success the backup is deleted.  Returns the final
state and the boolean result. -/
def save_json (fs : FileState) (data : String) (dry_run : Bool) (writeOk : Bool)
    (partialContent : Option String) : FileState × Bool :=
  if dry_run then (fs, true)
  else
    let fs1 := make_backup fs
    if writeOk then
      let fs2 : FileState := { fs1 with main := some data }
      let fs3 : FileState := if fs2.backup.isSome then { fs2 with backup := none } else fs2
      (fs3, true)
    else
      let fs2 : FileState := { fs1 with main := partialContent }
      let fs3 : FileState :=
        if fs2.backup.isSome then { main := fs2.backup, backup := none } else fs2
      (fs3, false)

theorem lookup_map_const_pair (ks : List String) (f : String → String) (k : String) :
    (ks.map (fun x => (x, f x))).lookup k = if k ∈ ks then some (f k) else none := by
  induction ks with
  | nil => simp
  | cons a t ih =>
    by_cases h : k = a
    · subst h; simp [List.lookup_cons]
    · have hba : (k == a) = false := beq_eq_false_iff_ne.mpr h
      simp [List.lookup_cons, hba, ih, h]

theorem mem_of_mem_table_keys {data : Table} {k : String}
    (h : k ∈ table_keys data) : k ∈ data.map Prod.fst := by
  unfold table_keys at h
  exact (List.mem_filter.1 h).1

theorem ne_schema_of_mem_table_keys {data : Table} {k : String}
    (h : k ∈ table_keys data) : k ≠ "$schema" := by
  unfold table_keys at h
  have := (List.mem_filter.1 h).2
  simpa using this

theorem mem_table_keys_of_mem {data : Table} {k : String}
    (h : k ∈ data.map Prod.fst) (hk : k ≠ "$schema") : k ∈ table_keys data := by
  unfold table_keys
  exact List.mem_filter.2 ⟨h, by simpa using hk⟩

theorem lookup_eq_none_of_not_mem {data : Table} {k : String}
    (h : k ∉ data.map Prod.fst) : data.lookup k = none := by
  rw [List.lookup_eq_none_iff]
  intro p hp
  have : p.1 ∈ data.map Prod.fst := List.mem_map_of_mem Prod.fst hp
  have hne : k ≠ p.1 := by rintro rfl; exact h this
  simpa using hne

theorem lookup_isSome_of_mem {data : Table} {k : String}
    (h : k ∈ data.map Prod.fst) : ∃ v, data.lookup k = some v := by
  rcases List.mem_map.1 h with ⟨p, hp, hk⟩
  have : (data.lookup k).isSome := by
    rw [List.lookup_isSome_iff]
    exact ⟨p, hp, by simp [hk]⟩
  exact Option.isSome_iff_exists.1 this

theorem table_keys_merge (reference target : Table) (p : String) :
    table_keys (merge_missing reference target p)
      = table_keys target ++ (find_missing_keys reference target).1 := by
  unfold merge_missing table_keys
  rw [List.map_append, List.filter_append]
  congr 1
  rw [List.map_map]
  have h1 : ((find_missing_keys reference target).1.map (Prod.fst ∘ fun k => (k, p)))
      = (find_missing_keys reference target).1 := by
    rw [show (Prod.fst ∘ fun k : String => (k, p)) = id from rfl, List.map_id]
  rw [h1]
  apply List.filter_eq_self.2
  intro a ha
  have ha2 : a ∈ table_keys reference := by
    unfold find_missing_keys at ha
    exact (List.mem_filter.1 ha).1
  simpa using ne_schema_of_mem_table_keys ha2

theorem missing_after_merge_nil (reference target : Table) (p : String) :
    (find_missing_keys reference (merge_missing reference target p)).1 = [] := by
  show (table_keys reference).filter _ = []
  rw [List.filter_eq_nil_iff]
  intro k hk
  have hmem2 : k ∈ table_keys (merge_missing reference target p) := by
    rw [table_keys_merge, List.mem_append]
    by_cases hmem : (table_keys target).contains k
    · exact Or.inl (List.elem_iff.1 hmem)
    · right
      show k ∈ (table_keys reference).filter _
      rw [List.mem_filter]
      refine ⟨hk, ?_⟩
      simpa using fun h => hmem (List.elem_iff.2 h)
  simpa using hmem2

theorem lookup_append_left {l₁ l₂ : Table} {k : String} {v : String}
    (h : l₁.lookup k = some v) : (l₁ ++ l₂).lookup k = some v := by
  rw [List.lookup_append, h]; rfl

theorem lookup_append_right {l₁ l₂ : Table} {k : String}
    (h : l₁.lookup k = none) : (l₁ ++ l₂).lookup k = l₂.lookup k := by
  rw [List.lookup_append, h]; rfl

theorem not_mem_target_of_missing {reference target : Table} {k : String}
    (h : k ∈ (find_missing_keys reference target).1) : k ∉ target.map Prod.fst := by
  have h1 := List.mem_filter.1 h
  have hks : k ≠ "$schema" := ne_schema_of_mem_table_keys h1.1
  have hnc : ¬ k ∈ table_keys target := by
    have := h1.2
    simpa using this
  intro hmem
  exact hnc (mem_table_keys_of_mem hmem hks)

/-- C3: `merge_missing` is idempotent: a second application finds no
missing keys left, so it returns its input unchanged. -/
theorem merge_missing_idempotent (reference target : Table) (p : String) :
    merge_missing reference (merge_missing reference target p) p
      = merge_missing reference target p := by
  conv_lhs => rw [merge_missing]
  rw [missing_after_merge_nil]
  simp

/-- C6: `merge_missing` never overwrites and never removes: any key
bound in the target keeps its binding, every target key survives, and every
missing key is bound to exactly the placeholder. -/
theorem merge_missing_frame (reference target : Table) (p : String) :
    (∀ k v, target.lookup k = some v →
        (merge_missing reference target p).lookup k = some v)
    ∧ (∀ k, k ∈ target.map Prod.fst →
        k ∈ (merge_missing reference target p).map Prod.fst)
    ∧ (∀ k, k ∈ (find_missing_keys reference target).1 →
        (merge_missing reference target p).lookup k = some p) := by
  refine ⟨?_, ?_, ?_⟩
  · intro k v h
    exact lookup_append_left h
  · intro k h
    unfold merge_missing
    rw [List.map_append]
    exact List.mem_append_left _ h
  · intro k h
    have hnone : target.lookup k = none :=
      lookup_eq_none_of_not_mem (not_mem_target_of_missing h)
    unfold merge_missing
    rw [lookup_append_right hnone, lookup_map_const_pair, if_pos h]

/-- Witness for C6 at a concrete pair of tables. -/
theorem merge_missing_frame_witness :
    (merge_missing [("a", "x")] [("b", "y")] "[TODO: translate]").lookup "a"
      = some "[TODO: translate]" :=
  (merge_missing_frame [("a", "x")] [("b", "y")] "[TODO: translate]").2.2 "a" (by decide)

/-- C8: the two components of `find_missing_keys` are disjoint: no key
is both missing-in-target and missing-in-source. -/
theorem find_missing_keys_disjoint (sv_data en_data : Table) (k : String)
    (h : k ∈ (find_missing_keys sv_data en_data).1) :
    k ∉ (find_missing_keys sv_data en_data).2 := by
  intro h2
  have h1f := List.mem_filter.1 h
  have h2f := List.mem_filter.1 h2
  have hk1 : k ∈ table_keys sv_data := h1f.1
  have hnm : ¬ k ∈ table_keys sv_data := by
    have := h2f.2
    simpa using this
  exact hnm hk1

/-- Witness for C8 at a concrete pair of tables. -/
theorem find_missing_keys_disjoint_witness :
    "a" ∉ (find_missing_keys [("a", "1")] [] ).2 :=
  find_missing_keys_disjoint [("a", "1")] [] "a" (by decide)

theorem sort_keys_map_fst (data : Table) :
    (sort_keys_alphabetically data).map Prod.fst
      = (if (data.map Prod.fst).contains "$schema" then ["$schema"] else [])
        ++ List.insertionSort (· ≤ ·) (table_keys data) := by
  unfold sort_keys_alphabetically
  rw [List.map_append, List.map_map,
    show (Prod.fst ∘ fun k : String => (k, getVal data k)) = id from rfl, List.map_id]
  congr 1
  by_cases h : (data.map Prod.fst).contains "$schema" = true
  · rw [if_pos h, if_pos h]; rfl
  · rw [if_neg h, if_neg h]; rfl

theorem schema_not_mem_sorted_rest (data : Table) :
    "$schema" ∉ List.insertionSort (α := String) (· ≤ ·) (table_keys data) := by
  intro h
  rw [List.mem_insertionSort] at h
  exact ne_schema_of_mem_table_keys h rfl

theorem mem_sort_keys_iff (data : Table) (k : String) :
    k ∈ (sort_keys_alphabetically data).map Prod.fst ↔ k ∈ data.map Prod.fst := by
  rw [sort_keys_map_fst, List.mem_append, List.mem_insertionSort]
  by_cases hk : k = "$schema"
  · subst hk
    constructor
    · rintro (h | h)
      · by_cases hc : (data.map Prod.fst).contains "$schema"
        · exact List.elem_iff.1 hc
        · rw [if_neg hc] at h; simp at h
      · exact absurd rfl (ne_schema_of_mem_table_keys h)
    · intro h
      left
      rw [if_pos (List.elem_iff.2 h)]
      simp
  · constructor
    · rintro (h | h)
      · exfalso
        by_cases hc : (data.map Prod.fst).contains "$schema" = true
        · rw [if_pos hc] at h
          simp at h
          exact hk h
        · rw [if_neg hc] at h
          simp at h
      · exact mem_of_mem_table_keys h
    · intro h
      exact Or.inr (mem_table_keys_of_mem h hk)

theorem sort_keys_lookup (data : Table) (k : String) (h : k ∈ data.map Prod.fst) :
    (sort_keys_alphabetically data).lookup k = data.lookup k := by
  obtain ⟨v, hv⟩ := lookup_isSome_of_mem h
  have hval : getVal data k = v := by rw [getVal, hv]; rfl
  by_cases hk : k = "$schema"
  · subst hk
    have hc : (data.map Prod.fst).contains "$schema" = true := List.elem_iff.2 h
    unfold sort_keys_alphabetically
    rw [if_pos hc, hval, hv]
    simp
  · unfold sort_keys_alphabetically
    have hnone :
        ((if (data.map Prod.fst).contains "$schema"
            then [("$schema", getVal data "$schema")] else []) : Table).lookup k
          = none := by
      by_cases hc : (data.map Prod.fst).contains "$schema"
      · rw [if_pos hc, List.lookup_cons]
        rw [show (k == "$schema") = false from beq_eq_false_iff_ne.mpr hk]
        rfl
      · rw [if_neg hc]; rfl
    have hmem : k ∈ List.insertionSort (α := String) (· ≤ ·)
        ((data.map Prod.fst).filter (fun k => !(k == "$schema"))) := by
      rw [List.mem_insertionSort]
      exact mem_table_keys_of_mem h hk
    rw [lookup_append_right hnone, lookup_map_const_pair, if_pos hmem, hval, hv]

theorem getVal_sort_keys (data : Table) (k : String) (h : k ∈ data.map Prod.fst) :
    getVal (sort_keys_alphabetically data) k = getVal data k := by
  unfold getVal
  rw [sort_keys_lookup data k h]

theorem sort_keys_contains_schema (data : Table) :
    ((sort_keys_alphabetically data).map Prod.fst).contains "$schema"
      = (data.map Prod.fst).contains "$schema" := by
  show List.elem "$schema" ((sort_keys_alphabetically data).map Prod.fst)
      = List.elem "$schema" (data.map Prod.fst)
  by_cases h : "$schema" ∈ data.map Prod.fst
  · rw [List.elem_iff.2 h, List.elem_iff.2 ((mem_sort_keys_iff data _).2 h)]
  · have h1 : ¬ "$schema" ∈ (sort_keys_alphabetically data).map Prod.fst :=
      fun hm => h ((mem_sort_keys_iff data _).1 hm)
    rw [Bool.eq_false_iff.mpr (fun hb => h1 (List.elem_iff.1 hb)),
      Bool.eq_false_iff.mpr (fun hb => h (List.elem_iff.1 hb))]

theorem sort_keys_rest_keys (data : Table) :
    ((sort_keys_alphabetically data).map Prod.fst).filter (fun k => !(k == "$schema"))
      = List.insertionSort (· ≤ ·) (table_keys data) := by
  rw [sort_keys_map_fst, List.filter_append]
  have h1 : ((if (data.map Prod.fst).contains "$schema" then ["$schema"] else [])
      : List String).filter (fun k => !(k == "$schema")) = [] := by
    by_cases hc : (data.map Prod.fst).contains "$schema" = true
    · rw [if_pos hc]; rfl
    · rw [if_neg hc]; rfl
  rw [h1, List.nil_append]
  apply List.filter_eq_self.2
  intro a ha
  rw [List.mem_insertionSort] at ha
  simpa using ne_schema_of_mem_table_keys ha

/-- C4: `normalize` is idempotent and key-set preserving: sorting twice
equals sorting once, the key set is unchanged, every key keeps its value,
the non-schema keys of the result are sorted, and `$schema` (when present)
is placed first. -/
theorem sort_keys_normalize (data : Table) :
    sort_keys_alphabetically (sort_keys_alphabetically data) = sort_keys_alphabetically data
    ∧ (∀ k, k ∈ (sort_keys_alphabetically data).map Prod.fst ↔ k ∈ data.map Prod.fst)
    ∧ (∀ k, k ∈ data.map Prod.fst →
        (sort_keys_alphabetically data).lookup k = data.lookup k)
    ∧ List.Sorted (· ≤ ·)
        (((sort_keys_alphabetically data).map Prod.fst).filter (fun k => !(k == "$schema")))
    ∧ ("$schema" ∈ data.map Prod.fst →
        (sort_keys_alphabetically data).head? = some ("$schema", getVal data "$schema")) := by
  refine ⟨?_, mem_sort_keys_iff data, sort_keys_lookup data, ?_, ?_⟩
  · conv_lhs => rw [sort_keys_alphabetically]
    rw [sort_keys_contains_schema, sort_keys_rest_keys,
      (List.sorted_insertionSort (· ≤ ·) (table_keys data)).insertionSort_eq]
    have hmap : (List.insertionSort (· ≤ ·) (table_keys data)).map
          (fun k => (k, getVal (sort_keys_alphabetically data) k))
        = (List.insertionSort (· ≤ ·) (table_keys data)).map
          (fun k => (k, getVal data k)) := by
      apply List.map_congr_left
      intro a ha
      rw [List.mem_insertionSort] at ha
      rw [getVal_sort_keys data a (mem_of_mem_table_keys ha)]
    rw [hmap]
    conv_rhs => rw [sort_keys_alphabetically]
    rw [show (data.map Prod.fst).filter (fun k => !(k == "$schema")) = table_keys data
      from rfl]
    by_cases hc : (data.map Prod.fst).contains "$schema" = true
    · rw [if_pos hc, if_pos hc, getVal_sort_keys data _ (List.elem_iff.1 hc)]
    · rw [if_neg hc, if_neg hc]
  · rw [sort_keys_rest_keys]
    exact List.sorted_insertionSort _ _
  · intro h
    unfold sort_keys_alphabetically
    rw [if_pos (List.elem_iff.2 h)]
    rfl

/-- Witness for C4 at a concrete table. -/
theorem sort_keys_normalize_witness :
    (sort_keys_alphabetically [("b", "1"), ("$schema", "s"), ("a", "2")]).head?
      = some ("$schema", getVal [("b", "1"), ("$schema", "s"), ("a", "2")] "$schema") :=
  (sort_keys_normalize [("b", "1"), ("$schema", "s"), ("a", "2")]).2.2.2.2 (by decide)

example : suggest_snake_case "helloWorld" = "hello_world" := by decide
example : suggest_snake_case "123Abc" = "123_abc" := by decide
example : suggest_snake_case "PascalCase" = "pascal_case" := by decide
example : suggest_snake_case "camelCase" = "camel_case" := by decide
example : validate_snake_case "hello_world" = true := by decide
example : validate_snake_case "Abc" = false := by decide
example : suggest_snake_case "aAB c" = "a_ab c" := by decide
example : suggest_snake_case "aAbC" = "a_ab_c" := by decide
example : suggest_snake_case "aAbcDef" = "a_abc_def" := by decide
example : suggest_snake_case "ABC" = "abc" := by decide
example : suggest_snake_case "aA" = "a_a" := by decide
example : suggest_snake_case "a_B" = "a_b" := by decide
example : suggest_snake_case "XMLHttpRequest" = "xml_http_request" := by decide
example : suggest_snake_case "__x__" = "x" := by decide
example : suggest_snake_case "9x" = "9x" := by decide
example : suggest_snake_case "A1b" = "a1b" := by decide
example : validate_snake_case "ab\n" = true := by decide
example : validate_snake_case "9x" = false := by decide

theorem isAsciiLower_eq_false_of_upper {c : Char} (h : isAsciiUpper c = true) :
    isAsciiLower c = false := by
  unfold isAsciiUpper at h
  simp only [Bool.and_eq_true, decide_eq_true_eq] at h
  unfold isAsciiLower
  have h1 : ¬ ('a' ≤ c) := fun ha => absurd (le_trans ha h.2) (by decide)
  simp [h1]

theorem isSnakeBody_eq_false_of_upper {c : Char} (h : isAsciiUpper c = true) :
    isSnakeBody c = false := by
  unfold isAsciiUpper at h
  simp only [Bool.and_eq_true, decide_eq_true_eq] at h
  unfold isSnakeBody isAsciiLower isAsciiDigit
  have h1 : ¬ ('a' ≤ c) := fun ha => absurd (le_trans ha h.2) (by decide)
  have h2 : ¬ (c ≤ '9') := fun ha => absurd (le_trans h.1 ha) (by decide)
  have h3 : c ≠ '_' := by
    intro he
    rw [he] at h
    exact absurd h.2 (by decide)
  simp [h1, h2, h3]

theorem matchesSnakePattern_eq_false_of_upper {l : List Char} {c : Char}
    (hc : c ∈ l) (hu : isAsciiUpper c = true) : matchesSnakePattern l = false := by
  cases l with
  | nil => simp at hc
  | cons a t =>
    show (isAsciiLower a && t.all isSnakeBody) = false
    rcases List.mem_cons.1 hc with rfl | hmem
    · rw [isAsciiLower_eq_false_of_upper hu, Bool.false_and]
    · have ht : t.all isSnakeBody = false := by
        rw [List.all_eq_false]
        exact ⟨c, hmem, by simp [isSnakeBody_eq_false_of_upper hu]⟩
      rw [ht, Bool.and_false]

theorem validate_eq_false_of_upper {key : String} {c : Char}
    (hc : c ∈ key.toList) (hu : isAsciiUpper c = true) :
    validate_snake_case key = false := by
  have hcn : c ≠ '\n' := by
    intro he
    rw [he] at hu
    exact absurd hu (by decide)
  unfold validate_snake_case
  rw [matchesSnakePattern_eq_false_of_upper hc hu, Bool.false_or]
  cases hl : key.toList.getLast? with
  | none => rfl
  | some x =>
    by_cases hx : x = '\n'
    · obtain ⟨ys, hy⟩ := List.getLast?_eq_some_iff.1 hl
      have hcy : c ∈ ys := by
        rw [hy] at hc
        rcases List.mem_append.1 hc with h | h
        · exact h
        · exfalso
          rw [List.mem_singleton] at h
          exact hcn (h.trans hx)
      have hcd : c ∈ key.toList.dropLast := by
        rw [hy, List.dropLast_concat]
        exact hcy
      show (x == '\n' && matchesSnakePattern key.toList.dropLast) = false
      rw [matchesSnakePattern_eq_false_of_upper hcd hu, Bool.and_false]
    · show (x == '\n' && matchesSnakePattern key.toList.dropLast) = false
      rw [beq_eq_false_iff_ne.mpr hx, Bool.false_and]

theorem validate_true_of_matches {key : String}
    (h : matchesSnakePattern key.toList = true) : validate_snake_case key = true := by
  unfold validate_snake_case
  rw [h, Bool.true_or]

/-- C7: a key matching `^[a-z][a-z0-9_]*$` never appears among the
naming violations; a key of the table containing an ASCII uppercase letter
always does. -/
theorem naming_violations_correct (data : Table) (k : String) :
    (matchesSnakePattern k.toList = true →
      k ∉ (find_naming_violations data).map Prod.fst)
    ∧ (k ∈ data.map Prod.fst → (∃ c ∈ k.toList, isAsciiUpper c = true) →
      k ∈ (find_naming_violations data).map Prod.fst) := by
  constructor
  · intro hm hmem
    unfold find_naming_violations at hmem
    rw [List.map_map,
      show (Prod.fst ∘ fun k => (k, suggest_snake_case k)) = (id : String → String)
        from rfl, List.map_id] at hmem
    have := (List.mem_filter.1 hmem).2
    rw [validate_true_of_matches hm] at this
    simp at this
  · intro hmem ⟨c, hc, hu⟩
    unfold find_naming_violations
    rw [List.map_map,
      show (Prod.fst ∘ fun k => (k, suggest_snake_case k)) = (id : String → String)
        from rfl, List.map_id]
    rw [List.mem_filter]
    refine ⟨hmem, ?_⟩
    have hks : k ≠ "$schema" := by
      intro he
      have hall : ∀ x ∈ "$schema".toList, isAsciiUpper x = false := by decide
      rw [he] at hc
      rw [hall c hc] at hu
      exact Bool.false_ne_true hu
    rw [beq_eq_false_iff_ne.mpr hks, validate_eq_false_of_upper hc hu]
    rfl

/-- Witness for C7: `"Bad"` contains an uppercase letter and is reported. -/
theorem naming_violations_correct_witness :
    "Bad" ∈ (find_naming_violations [("Bad", "x"), ("good", "y")]).map Prod.fst :=
  (naming_violations_correct [("Bad", "x"), ("good", "y")] "Bad").2 (by decide)
    ⟨'B', by decide, by decide⟩

theorem char_toNat_le_of_le {a b : Char} (h : a ≤ b) : a.toNat ≤ b.toNat := by
  rw [Char.le_def, UInt32.le_def, BitVec.le_def] at h
  exact h

theorem toLower_of_digit {c : Char} (h : isAsciiDigit c = true) : c.toLower = c := by
  unfold isAsciiDigit at h
  simp only [Bool.and_eq_true, decide_eq_true_eq] at h
  have h2 : c.toNat ≤ 57 := char_toNat_le_of_le h.2
  unfold Char.toLower
  rw [if_neg]
  omega

theorem runSub1_head : ∀ (cs : List Char) (p : Char),
    ((runSub1 (CamelState.one p) cs).head? = some p)
    ∧ (∀ u acc, (runSub1 (CamelState.two p u acc) cs).head? = some p) := by
  intro cs
  induction cs with
  | nil =>
    intro p
    refine ⟨rfl, ?_⟩
    intro u acc
    cases acc <;> rfl
  | cons c cs ih =>
    intro p
    constructor
    · cases h : isAsciiUpper c with
      | true => simpa [runSub1, sub1Step, h] using (ih p).2 c []
      | false => simp [runSub1, sub1Step, h]
    · intro u acc
      cases acc with
      | nil =>
        cases hl : isAsciiLower c with
        | true => simpa [runSub1, sub1Step, hl] using (ih p).2 u [c]
        | false =>
          cases hu : isAsciiUpper c with
          | true => simp [runSub1, sub1Step, hl, hu]
          | false => simp [runSub1, sub1Step, hl, hu]
      | cons a as =>
        cases hl : isAsciiLower c with
        | true => simpa [runSub1, sub1Step, hl] using (ih p).2 u ((a :: as) ++ [c])
        | false => simp [runSub1, sub1Step, hl]

theorem runSub2_head (cs : List Char) (p : Char) :
    (runSub2 (some p) cs).head? = some p := by
  cases cs with
  | nil => rfl
  | cons c cs =>
    cases h : (isAsciiLower p || isAsciiDigit p) && isAsciiUpper c with
    | true => simp [runSub2, sub2Step, h]
    | false => simp [runSub2, sub2Step, h]

theorem squeeze_cons_of_ne {c : Char} (l : List Char) (h : (c == '_') = false) :
    squeezeUnderscores (c :: l) = c :: squeezeUnderscores l := by
  unfold squeezeUnderscores
  rw [List.foldr_cons, h]
  simp

theorem dropWhile_append_singleton (q : Char → Bool) {c : Char} (h : q c = false)
    (ys : List Char) : (ys ++ [c]).dropWhile q = ys.dropWhile q ++ [c] := by
  induction ys with
  | nil => simp [List.dropWhile, h]
  | cons a t ih =>
    cases ha : q a with
    | true => simp [List.dropWhile_cons, ha, ih]
    | false => simp [List.dropWhile_cons, ha]

theorem strip_head_of_ne {c : Char} (l : List Char) (h : (c == '_') = false) :
    (stripUnderscores (c :: l)).head? = some c := by
  unfold stripUnderscores
  rw [List.dropWhile_cons]
  simp only [h, Bool.false_eq_true, if_false, List.reverse_cons]
  rw [dropWhile_append_singleton (fun x => x == '_') h]
  simp

theorem cons_shape_of_head {l : List Char} {c : Char} (h : l.head? = some c) :
    ∃ t, l = c :: t := by
  cases l with
  | nil => simp at h
  | cons x xs =>
    rw [List.head?_cons, Option.some_inj] at h
    exact ⟨xs, by rw [h]⟩

theorem suggest_head_digit {key : String} {c : Char} {cs : List Char}
    (hk : key.toList = c :: cs) (hd : isAsciiDigit c = true) :
    (suggest_snake_case key).toList.head? = some c := by
  have hne : (c == '_') = false := by
    apply beq_eq_false_iff_ne.mpr
    intro he
    rw [he] at hd
    exact absurd hd (by decide)
  unfold suggest_snake_case
  rw [hk]
  have h1 : runSub1 CamelState.start (c :: cs) = runSub1 (CamelState.one c) cs := by
    simp [runSub1, sub1Step]
  rw [h1]
  obtain ⟨t, ht⟩ := cons_shape_of_head (runSub1_head cs c).1
  rw [ht]
  have h2 : runSub2 none (c :: t) = runSub2 (some c) t := by
    simp [runSub2, sub2Step]
  rw [h2]
  obtain ⟨t2, ht2⟩ := cons_shape_of_head (runSub2_head t c)
  rw [ht2, List.map_cons, toLower_of_digit hd, squeeze_cons_of_ne _ hne]
  exact strip_head_of_ne _ hne

theorem digit_not_lower {c : Char} (hd : isAsciiDigit c = true) :
    isAsciiLower c = false := by
  unfold isAsciiDigit at hd
  simp only [Bool.and_eq_true, decide_eq_true_eq] at hd
  unfold isAsciiLower
  have h1 : ¬ ('a' ≤ c) := fun ha => absurd (le_trans ha hd.2) (by decide)
  simp [h1]

theorem validate_eq_false_of_digit_head {s : String} {c : Char}
    (hh : s.toList.head? = some c) (hd : isAsciiDigit c = true) :
    validate_snake_case s = false := by
  obtain ⟨t, ht⟩ := cons_shape_of_head hh
  have hlow : isAsciiLower c = false := digit_not_lower hd
  unfold validate_snake_case
  rw [ht]
  have hm1 : matchesSnakePattern (c :: t) = false := by
    show (isAsciiLower c && t.all isSnakeBody) = false
    rw [hlow, Bool.false_and]
  rw [hm1, Bool.false_or]
  cases hg : (c :: t).getLast? with
  | none => rfl
  | some x =>
    by_cases hx : x = '\n'
    · cases t with
      | nil =>
        show (x == '\n' && matchesSnakePattern []) = false
        rw [show matchesSnakePattern [] = false from rfl, Bool.and_false]
      | cons y ys =>
        have hm2 : matchesSnakePattern ((c :: y :: ys).dropLast) = false := by
          show (isAsciiLower c && ((y :: ys).dropLast).all isSnakeBody) = false
          rw [hlow, Bool.false_and]
        show (x == '\n' && matchesSnakePattern (c :: y :: ys).dropLast) = false
        rw [hm2, Bool.and_false]
    · show (x == '\n' && matchesSnakePattern (c :: t).dropLast) = false
      rw [beq_eq_false_iff_ne.mpr hx, Bool.false_and]

/-- C10: the suggested rewrite for `"123Abc"` is `"123_abc"`, which
still fails `^[a-z][a-z0-9_]*$` (it starts with a digit); in general the
suggestion for any digit-leading key is itself a naming violation. -/
theorem suggest_digit_leading_violation :
    suggest_snake_case "123Abc" = "123_abc"
    ∧ validate_snake_case "123Abc" = false
    ∧ validate_snake_case (suggest_snake_case "123Abc") = false
    ∧ (∀ (key : String) (c : Char) (cs : List Char),
        key.toList = c :: cs → isAsciiDigit c = true →
        validate_snake_case (suggest_snake_case key) = false) := by
  refine ⟨by decide, by decide, by decide, ?_⟩
  intro key c cs hk hd
  exact validate_eq_false_of_digit_head (suggest_head_digit hk hd) hd

/-- Witness for C10 at another digit-leading key. -/
theorem suggest_digit_leading_violation_witness :
    validate_snake_case (suggest_snake_case "9x") = false :=
  suggest_digit_leading_violation.2.2.2 "9x" '9' ['x'] (by decide) (by decide)

theorem filter_addToGroups_self {α : Type} (gs : List (String × List α)) (v : String)
    (k : α) :
    (addToGroups gs v k).filter (fun g => g.1 == v)
      = extendGroups v (gs.filter (fun g => g.1 == v)) [k] := by
  induction gs with
  | nil => simp [addToGroups, extendGroups]
  | cons g rest ih =>
    obtain ⟨w, ks⟩ := g
    by_cases hw : w = v
    · subst hw
      simp [addToGroups, extendGroups]
    · simp only [addToGroups, if_neg hw, List.filter_cons,
        beq_eq_false_iff_ne.mpr hw, Bool.false_eq_true, if_false, ih]

theorem filter_addToGroups_ne {α : Type} (gs : List (String × List α)) {w v : String}
    (hw : w ≠ v) (k : α) :
    (addToGroups gs w k).filter (fun g => g.1 == v)
      = gs.filter (fun g => g.1 == v) := by
  induction gs with
  | nil => simp [addToGroups, beq_eq_false_iff_ne.mpr hw]
  | cons g rest ih =>
    obtain ⟨x, ks⟩ := g
    by_cases hx : x = w
    · subst hx
      simp [addToGroups, List.filter_cons, beq_eq_false_iff_ne.mpr hw]
    · simp only [addToGroups, if_neg hx, List.filter_cons, ih]

theorem extendGroups_nil {α : Type} (v : String) (gs : List (String × List α)) :
    extendGroups v gs [] = gs := by
  cases gs with
  | nil => rfl
  | cons g rest =>
    obtain ⟨w, ks0⟩ := g
    simp [extendGroups]

theorem extendGroups_extend {α : Type} (v : String) (gs : List (String × List α))
    (k : α) (ks : List α) :
    extendGroups v (extendGroups v gs [k]) ks = extendGroups v gs (k :: ks) := by
  cases gs with
  | nil => simp [extendGroups]
  | cons g rest =>
    obtain ⟨w, ks0⟩ := g
    simp [extendGroups]

theorem filter_foldl_addToGroups {α : Type} (v : String) :
    ∀ (entries : List (String × α)) (acc : List (String × List α)),
      (entries.foldl (fun gs e => addToGroups gs e.1 e.2) acc).filter (fun g => g.1 == v)
        = extendGroups v (acc.filter (fun g => g.1 == v))
            ((entries.filter (fun e => e.1 == v)).map Prod.snd) := by
  intro entries
  induction entries with
  | nil =>
    intro acc
    simp [extendGroups_nil]
  | cons e rest ih =>
    intro acc
    obtain ⟨w, k⟩ := e
    rw [List.foldl_cons]
    show (rest.foldl (fun gs e => addToGroups gs e.1 e.2) (addToGroups acc w k)).filter _
        = _
    rw [ih]
    by_cases hw : w = v
    · subst hw
      rw [filter_addToGroups_self, extendGroups_extend]
      simp [List.filter_cons]
    · rw [filter_addToGroups_ne _ hw]
      simp [List.filter_cons, beq_eq_false_iff_ne.mpr hw]

theorem filter_buildGroups {α : Type} (v : String) (entries : List (String × α)) :
    (buildGroups entries).filter (fun g => g.1 == v)
      = extendGroups v [] ((entries.filter (fun e => e.1 == v)).map Prod.snd) := by
  unfold buildGroups
  rw [filter_foldl_addToGroups]
  rw [List.filter_nil]

theorem filter_find_duplicates (data : Table) (v : String) :
    (find_duplicate_values data).filter (fun g => g.1 == v)
      = (extendGroups v []
          (((data.filter (fun kv => !(kv.1 == "$schema") && dup_value_ok kv.2)).filter
              (fun kv => kv.2 == v)).map Prod.fst)).filter
          (fun g => decide (g.2.length > 1)) := by
  unfold find_duplicate_values
  rw [List.filter_filter]
  rw [List.filter_congr (fun a _ => Bool.and_comm _ _)]
  rw [← List.filter_filter]
  rw [filter_buildGroups]
  rw [List.filter_map]
  rw [show ((fun e : String × String => e.1 == v) ∘ fun kv : String × String => (kv.2, kv.1))
      = (fun kv : String × String => kv.2 == v) from rfl]
  rw [List.map_map]
  rw [show (Prod.snd ∘ fun kv : String × String => (kv.2, kv.1))
      = (Prod.fst : String × String → String) from rfl]

theorem dup_keys_of_ok (data : Table) {v : String} (h : dup_value_ok v = true) :
    ((data.filter (fun kv => !(kv.1 == "$schema") && dup_value_ok kv.2)).filter
        (fun kv => kv.2 == v)).map Prod.fst
      = (data.filter (fun kv => !(kv.1 == "$schema") && kv.2 == v)).map Prod.fst := by
  rw [List.filter_filter]
  congr 1
  apply List.filter_congr
  intro kv _
  by_cases hv : kv.2 = v
  · rw [hv]
    simp [h]
  · rw [beq_eq_false_iff_ne.mpr hv]
    simp

theorem dup_keys_of_not_ok (data : Table) {v : String} (h : dup_value_ok v = false) :
    ((data.filter (fun kv => !(kv.1 == "$schema") && dup_value_ok kv.2)).filter
        (fun kv => kv.2 == v)).map Prod.fst = [] := by
  rw [List.filter_filter]
  have hnil : data.filter
      (fun kv => (kv.2 == v) && (!(kv.1 == "$schema") && dup_value_ok kv.2)) = [] := by
    rw [List.filter_eq_nil_iff]
    intro kv _
    by_cases hv : kv.2 = v
    · rw [hv]
      simp [h]
    · rw [beq_eq_false_iff_ne.mpr hv]
      simp
  rw [hnil]
  rfl

/-- C2 fails as stated: the value `"a "` has length 2 > 1, contains no
`"TODO"`, and is shared by two distinct keys, but the code measures the
*stripped* length (here 1) and reports no duplicate group at all. -/
theorem find_duplicates_counterexample :
    "a ".length > 1
    ∧ containsPat "TODO".toList "a ".toList = false
    ∧ ("k1" : String) ≠ "k2"
    ∧ find_duplicate_values [("k1", "a "), ("k2", "a ")] = [] :=
  ⟨by decide, by decide, by decide, by decide⟩

/-- C2 (amended): a value is reported in exactly one group — carrying
exactly the non-schema keys bound to it, in table order — iff its
*stripped* length is > 1, it contains no `"TODO"`, and it is shared by at
least 2 keys; any value failing the filters or used by at most one key is
never reported. -/
theorem find_duplicates_amended (data : Table) (v : String) :
    (dup_value_ok v = true →
      2 ≤ ((data.filter (fun kv => !(kv.1 == "$schema") && kv.2 == v)).map Prod.fst).length →
      (find_duplicate_values data).filter (fun g => g.1 == v)
        = [(v, (data.filter (fun kv => !(kv.1 == "$schema") && kv.2 == v)).map Prod.fst)])
    ∧ (dup_value_ok v = false →
      (find_duplicate_values data).filter (fun g => g.1 == v) = [])
    ∧ (((data.filter (fun kv => !(kv.1 == "$schema") && kv.2 == v)).map Prod.fst).length ≤ 1 →
      (find_duplicate_values data).filter (fun g => g.1 == v) = []) := by
  refine ⟨?_, ?_, ?_⟩
  · intro hok hlen
    rw [filter_find_duplicates, dup_keys_of_ok data hok]
    cases hKc : (data.filter (fun kv => !(kv.1 == "$schema") && kv.2 == v)).map Prod.fst with
    | nil =>
      rw [hKc] at hlen
      simp at hlen
    | cons a t =>
      rw [hKc] at hlen
      show ([(v, a :: t)].filter (fun g => decide (g.2.length > 1))) = _
      have h0 : 0 < t.length := by
        have h2 : 2 ≤ t.length + 1 := by simpa using hlen
        omega
      simp [h0]
  · intro hnok
    rw [filter_find_duplicates, dup_keys_of_not_ok data hnok]
    rfl
  · intro hlen
    by_cases hok : dup_value_ok v = true
    · rw [filter_find_duplicates, dup_keys_of_ok data hok]
      cases hKc : (data.filter (fun kv => !(kv.1 == "$schema") && kv.2 == v)).map Prod.fst with
      | nil => rfl
      | cons a t =>
        cases t with
        | nil => rfl
        | cons b t2 =>
          rw [hKc] at hlen
          simp at hlen
    · rw [filter_find_duplicates,
        dup_keys_of_not_ok data (Bool.eq_false_iff.mpr hok)]
      rfl

/-- Witness for C2 (amended) at a concrete table. -/
theorem find_duplicates_amended_witness :
    (find_duplicate_values [("x", "ab"), ("y", "ab")]).filter (fun g => g.1 == "ab")
      = [("ab", ["x", "y"])] :=
  ((find_duplicates_amended [("x", "ab"), ("y", "ab")] "ab").1 (by decide)
    (by decide)).trans (by decide)

example :
    find_duplicate_values [("$schema", "x"), ("hello_world", "Hej"), ("bye", "Hej")]
      = [("Hej", ["hello_world", "bye"])] := by decide

example : dup_value_ok "\u00A0a\u00A0" = false := by decide
example : find_duplicate_values [("k1", "\u00A0a\u00A0"), ("k2", "\u00A0a\u00A0")] = [] := by
  decide
example : dup_value_ok "\u000Ba\u000C" = false := by decide
example : dup_value_ok "\u2003ab\u2003" = true := by decide
example : dup_value_ok "\u200Ba\u200B" = true := by decide

example : extract_translation_keys sampleSource
    = [("hello_world", [5]), ("bye", [9])] := by decide

/-- C9: on the sample source the scanner produces a UsageIndex mapping
`"hello_world"` to exactly `[(file, 5)]` and `"bye"` to exactly
`[(file, 9)]`. -/
theorem usage_index_sample (file : String) :
    usage_index file sampleSource
      = [("hello_world", [(file, 5)]), ("bye", [(file, 9)])] := by
  have h : extract_translation_keys sampleSource
      = [("hello_world", [5]), ("bye", [9])] := by decide
  unfold usage_index
  rw [h]
  rfl

theorem exit_zero_iff (b : Bool) : (if b = true then (1 : Nat) else 0) = 0 ↔ b = false := by
  cases b <;> simp

/-- C1 fails as stated: with tables whose only finding is the naming
violation `"Bad"` (no missing keys in either direction and no duplicate
groups), the check-mode run exits 1, not 0. -/
theorem check_exit_counterexample :
    (find_missing_keys [("Bad", "x")] [("Bad", "y")]).1 = []
    ∧ (find_missing_keys [("Bad", "x")] [("Bad", "y")]).2 = []
    ∧ find_duplicate_values [("Bad", "x")] = []
    ∧ find_duplicate_values [("Bad", "y")] = []
    ∧ find_naming_violations [("Bad", "x")] ≠ []
    ∧ check_mode_exit [("Bad", "x")] [("Bad", "y")] = 1 := by
  refine ⟨by decide, by decide, by decide, by decide, by decide, by decide⟩

/-- C1 (amended): duplicate values never affect the exit status, but
naming violations do: the sync check-mode exit is 0 iff there are no
missing keys and no naming violations (so a run whose only findings are
duplicate groups exits 0, and one with naming violations exits 1); the
extract run exits 0 iff every key used in code exists in some table. -/
theorem exit_code_characterization (sv_data en_data : Table)
    (used_keys : List String) :
    (check_mode_exit sv_data en_data = 0 ↔
      ((find_missing_keys sv_data en_data).1 = []
        ∧ (find_missing_keys sv_data en_data).2 = []
        ∧ find_naming_violations sv_data = []
        ∧ find_naming_violations en_data = []))
    ∧ (extract_exit_code used_keys sv_data en_data = 0 ↔
      ∀ k ∈ used_keys, k ∈ table_keys sv_data ∨ k ∈ table_keys en_data) := by
  constructor
  · unfold check_mode_exit
    rw [exit_zero_iff]
    simp only [Bool.or_eq_false_iff, Bool.not_eq_false', List.isEmpty_iff]
    tauto
  · unfold extract_exit_code
    rw [exit_zero_iff]
    simp [List.isEmpty_iff, List.filter_eq_nil_iff, List.mem_append]
    constructor
    · intro h k hk
      by_cases hsv : k ∈ table_keys sv_data
      · exact Or.inl hsv
      · exact Or.inr (h k hk hsv)
    · intro h k hk hsv
      rcases h k hk with h1 | h1
      · exact absurd h1 hsv
      · exact h1

/-- Witness for C1 (amended) at concrete tables and usage. -/
theorem exit_code_characterization_witness :
    check_mode_exit [("ok", "v")] [("ok", "w")] = 0
    ∧ extract_exit_code ["ok"] [("ok", "v")] [("ok", "w")] = 0 :=
  ⟨(exit_code_characterization [("ok", "v")] [("ok", "w")] ["ok"]).1.mpr (by decide),
   (exit_code_characterization [("ok", "v")] [("ok", "w")] ["ok"]).2.mpr (by decide)⟩

/-- C5: for a save whose backing file exists: the previous content is
first preserved under the sibling backup name; a failed write restores it
(the store never keeps the truncated content); a successful write installs
the new content and deletes the backup. -/
theorem save_json_atomic (fs : FileState) (data old : String) (writeOk : Bool)
    (partialContent : Option String) (h : fs.main = some old) :
    (make_backup fs).backup = some old
    ∧ save_json fs data false writeOk partialContent
        = if writeOk then (⟨some data, none⟩, true) else (⟨some old, none⟩, false) := by
  obtain ⟨m, b⟩ := fs
  have hm : m = some old := h
  subst hm
  exact ⟨rfl, by cases writeOk <;> rfl⟩

/-- Witness for C5: a failing write leaves the pre-write content in place. -/
theorem save_json_atomic_witness :
    (make_backup ⟨some "old", none⟩).backup = some "old"
    ∧ save_json ⟨some "old", none⟩ "new" false false (some "half")
        = (⟨some "old", none⟩, false) := by
  have h := save_json_atomic ⟨some "old", none⟩ "new" "old" false (some "half") rfl
  exact ⟨h.1, h.2⟩

end I18n
